import Mathlib

/-!
Verification of the etget time-fixing core.

The repository ingests "disguised" timestamps: an upstream process formatted
the local wall-clock reading of an event and reinterpreted those digits as a
Unix epoch count, so the integer actually encodes a zone-less local calendar
tuple.  The core recovers the true absolute instant of each reading,
disambiguating the repeated autumn hour with per-stream state and mapping the
skipped spring hour forward.

Modelling conventions.  Absolute instants and wall-clock tuples are both
represented as `Int` seconds: a wall-clock tuple (year..second, proleptic
Gregorian, no leap seconds) is in bijection with its zero-offset elapsed
seconds count, and the Naive Decoder of the spec is exactly this bijection
applied to the parsed integer, so nothing is lost by working with the seconds
count directly.  Mutation (the Go pointer receiver of `ParseBrokenTime`, the
in-place writes of the batch adapter) is explicit state passing.  Go's
`(time.Time, error)` return is a `(Int × Bool × TimeFixer)` triple whose
`Bool` is the error flag and whose sentinel instant is `0`.
-/

namespace Etget

/-- Zone Transition Model (spec 4.1).  `std`/`dst` are the standard and
daylight UTC offsets in seconds, `spring` and `autumn` the absolute instants
of the spring-forward and autumn-fall-back transitions of the covered year.
Daylight time is in force on the absolute interval `[spring, autumn)`.
Modelled from the spec: the zone table consulted by the timefixer package is
not under src/; the model covers one spring/autumn transition pair, which is
the span every claim quantifies over. -/
structure ZoneRule where
  std : Int
  dst : Int
  spring : Int
  autumn : Int
deriving DecidableEq

/-- The zone's daylight delta: width of the ambiguous and of the skipped
window (one hour for the reference zone of the spec). -/
def ZoneRule.delta (z : ZoneRule) : Int := z.dst - z.std

/-- ResolverState (spec 3): the running memory of one resolution stream.
Named after the Go type `TimeFixer` exercised by src/timefixer/timefixer_test.go.
Modelled from the spec: timefixer.go itself is not under src/. -/
structure TimeFixer where
  lastResolvedInstant : Option Int
  lastAppliedOffset : Option Int
deriving DecidableEq

/-- The initial state of a stream: no prior resolved instant. -/
def TimeFixer.fresh : TimeFixer := ⟨none, none⟩

/-- Default civil status of a wall-clock reading (spec 4.3 step 1). -/
inductive CivilStatus where
  | unambStd
  | unambDst
  | ambiguous
  | nonexistent
deriving DecidableEq

/-- Classify a wall-clock reading `w` (as naive seconds) against zone `z`.
The standard interpretation `w - std` is valid iff it falls outside
`[spring, autumn)`; the daylight interpretation `w - dst` is valid iff it
falls inside.  Hence `w` is nonexistent on `[spring+std, spring+dst)`,
ambiguous on `[autumn+std, autumn+dst)`, unambiguously daylight on
`[spring+dst, autumn+std)` and unambiguously standard elsewhere.
Modelled from the spec (4.3 step 1). -/
def civilStatus (z : ZoneRule) (w : Int) : CivilStatus :=
  if z.spring + z.std ≤ w ∧ w < z.spring + z.dst then .nonexistent
  else if z.autumn + z.std ≤ w ∧ w < z.autumn + z.dst then .ambiguous
  else if z.spring + z.dst ≤ w ∧ w < z.autumn + z.std then .unambDst
  else .unambStd

/-- Resolution State Machine, one step (spec 4.3).  Modelled from the spec:
the body of `TimeFixer.ParseBrokenTime` is not under src/, only its test.
Unambiguous readings take their single offset; a nonexistent reading is
shifted forward by the daylight delta and takes the daylight offset; an
ambiguous reading takes the daylight (earlier) offset when the stream has no
prior instant or the daylight candidate strictly exceeds it, and the standard
(later) offset otherwise.  The state is updated to the produced instant and
the applied offset. -/
def resolve (z : ZoneRule) (st : TimeFixer) (w : Int) : Int × TimeFixer :=
  match civilStatus z w with
  | .unambStd => (w - z.std, ⟨some (w - z.std), some z.std⟩)
  | .unambDst => (w - z.dst, ⟨some (w - z.dst), some z.dst⟩)
  | .nonexistent =>
      ((w + z.delta) - z.dst, ⟨some ((w + z.delta) - z.dst), some z.dst⟩)
  | .ambiguous =>
      let tDst := w - z.dst
      let useDst :=
        match st.lastResolvedInstant with
        | none => true
        | some l => decide (l < tDst)
      if useDst then (tDst, ⟨some tDst, some z.dst⟩)
      else (w - z.std, ⟨some (w - z.std), some z.std⟩)

/-- Accumulating decimal parse of a digit string (base 10). -/
def parseNatCore : List Char → Nat → Option Nat
  | [], acc => some acc
  | c :: cs, acc =>
      if c.isDigit then parseNatCore cs (acc * 10 + (c.toNat - 48))
      else none

/-- Naive Decoder, parsing half (spec 4.2): a non-empty all-digit string
parses to its non-negative decimal value; anything else is a
`MalformedReading`.  Modelled from the spec: the decoder's body is not under
src/, only `TestTimeFixerError` which feeds it `"invalid input"`. -/
def parseNonNeg (s : String) : Option Nat :=
  match s.data with
  | [] => none
  | cs => parseNatCore cs 0

/-- Streaming entry point `TimeFixer.ParseBrokenTime` (modelled from the
spec; the Go method's receiver mutation is the returned state).  On a
malformed reading it returns the sentinel instant `0`, the error flag, and
the unchanged state; otherwise it decodes the reading to its wall-clock
seconds count and runs one resolution step. -/
def ParseBrokenTime (z : ZoneRule) (st : TimeFixer) (s : String) :
    Int × Bool × TimeFixer :=
  match parseNonNeg s with
  | none => (0, true, st)
  | some n =>
      let p := resolve z st (Int.ofNat n)
      (p.1, false, p.2)

/-- Drive one resolver through a list of wall-clock readings, collecting the
resolved instants (the streaming mode restricted to already-decoded inputs). -/
def resolveList (z : ZoneRule) (st : TimeFixer) : List Int → List Int
  | [] => []
  | w :: ws => (resolve z st w).1 :: resolveList z (resolve z st w).2 ws

/-- UTC offset in force at absolute instant `t`. -/
def offsetAt (z : ZoneRule) (t : Int) : Int :=
  if z.spring ≤ t ∧ t < z.autumn then z.dst else z.std

/-- The defective upstream encoding (spec 1): the disguised counter of a true
instant `t` is its local wall-clock reading taken as naive seconds. -/
def disguise (z : ZoneRule) (t : Int) : Int := t + offsetAt z t

/-- True instants of a regular hourly cadence: `t, t+3600, ...` (`n` terms). -/
def hourly : Int → Nat → List Int
  | _, 0 => []
  | t, n + 1 => t :: hourly (t + 3600) n

/-- The Europe/Helsinki rule for late 2015 used by the autumn test case of
src/timefixer/timefixer_test.go: EET = UTC+2, EEST = UTC+3, DST ended
2015-10-25 01:00 UTC (spring instant from 2015-03-29 01:00 UTC). -/
def zHel2015 : ZoneRule := ⟨7200, 10800, 1427590800, 1445734800⟩

/-- The Europe/Helsinki rule for 2012 (transitions 2012-03-25 and 2012-10-28,
both at 01:00 UTC), for the winter test case. -/
def zHel2012 : ZoneRule := ⟨7200, 10800, 1332637200, 1351386000⟩

/-- The Europe/Helsinki rule for 2016 (transitions 2016-03-27 and 2016-10-30,
both at 01:00 UTC), for the summer and spring test cases. -/
def zHel2016 : ZoneRule := ⟨7200, 10800, 1459040400, 1477789200⟩

/-- One row of the elspot table (src/cmd/elspot-parse/main.go `record`): a
timestamp and the per-area price strings.  The Go `map[string]string` is an
association list read through `mapGet` (first hit wins; `mapInsert` prepends,
so a later insert shadows an earlier binding, matching map overwrite). -/
structure Rec where
  Timestamp : Int
  Prices : List (String × String)
deriving DecidableEq

/-- Map update: the new binding shadows any earlier one. -/
def mapInsert (m : List (String × String)) (k v : String) :
    List (String × String) :=
  (k, v) :: m

/-- Map lookup with Go's zero-value default: a missing key reads as `""`. -/
def mapGet : List (String × String) → String → String
  | [], _ => ""
  | (k2, v) :: rest, k => if k2 = k then v else mapGet rest k

/-- `records.Len` (src/cmd/elspot-parse/main.go line 83). -/
def recLen (r : List Rec) : Nat := r.length

/-- `records.Time` (main.go line 84): the Timestamp at index `i`.  Go panics
out of range; the model defaults, and every call site stays in range. -/
def recTime (r : List Rec) (i : Nat) : Int :=
  ((r.get? i).map Rec.Timestamp).getD 0

/-- `records.SetTime` (main.go line 85): overwrite only the Timestamp field
of element `i`.  The value receiver copies the slice header, but the element
write lands in the shared backing array; the model makes that visible effect
explicit by returning the updated sequence. -/
def recSetTime (r : List Rec) (i : Nat) (t : Int) : List Rec :=
  match r.get? i with
  | none => r
  | some x => r.set i { x with Timestamp := t }

/-- Loop body of the Batch Adapter: run the remaining `n` iterations starting
at index `i`, threading the resolver state. -/
def fixDSTAux (z : ZoneRule) (st : TimeFixer) (r : List Rec) (i : Nat) :
    Nat → List Rec
  | 0 => r
  | n + 1 =>
      let p := resolve z st (recTime r i)
      fixDSTAux z p.2 (recSetTime r i p.1) (i + 1) n

/-- Batch Adapter `notz.FixDST` (spec 4.4), instantiated at the `records`
collection of src/cmd/elspot-parse/main.go.  Modelled from the spec: the notz
package is not under src/, only its caller.  One pass over indices
`0..n-1`, one fresh `TimeFixer` for the whole pass, each corrected instant
written back at its index. -/
def fixDST (z : ZoneRule) (r : List Rec) : List Rec :=
  fixDSTAux z TimeFixer.fresh r 0 (recLen r)

/-- An HTML table as produced by the htmltable collaborator: header rows and
data rows of cell strings. -/
structure Table where
  Headers : List (List String)
  Rows : List (List String)

/-- The `commaToPeriod` replacer of main.go line 95. -/
def commaToPeriod (s : String) : String :=
  String.mk (s.data.map fun c => if c = ',' then '.' else c)

/-- The price-map loop of main.go lines 99-102: for each header key `k` at
position `i`, bind `k` to the comma-fixed cell `t[i]`.  Go would panic when a
row is shorter than the header; the model reads `""` there. -/
def buildPricesAux (row : List String) :
    List String → Nat → List (String × String) → List (String × String)
  | [], _, m => m
  | k :: ks, i, m =>
      buildPricesAux row ks (i + 1) (mapInsert m k (commaToPeriod (row.getD i "")))

/-- Prices of one row, keyed by the third header row of the table. -/
def buildPrices (header row : List String) : List (String × String) :=
  buildPricesAux row header 0 []

/-- Row loop of `parseTable` (main.go lines 97-115): build the price map,
silently skip the row when its "SYS" entry is empty, otherwise parse the
timestamp from the date cell and the first two bytes of the hour cell and
emit a record.  A timestamp parse failure aborts the whole table.
`parseTs` stands for the external `time.ParseInLocation` call with the fixed
layout and location. -/
def parseRows (parseTs : String → String → Option Int) (header : List String) :
    List (List String) → Option (List Rec)
  | [] => some []
  | row :: rest =>
      let prices := buildPrices header row
      if mapGet prices "SYS" = "" then parseRows parseTs header rest
      else
        match parseTs (row.getD 0 "") ((row.getD 1 "").take 2) with
        | none => none
        | some ts =>
            (parseRows parseTs header rest).map (fun rs => ⟨ts, prices⟩ :: rs)

/-- `parseTable` (main.go lines 87-118): header is the third header row;
rows are parsed in order and the batch adapter repairs the timestamps of the
collected records before they are returned. -/
def parseTable (z : ZoneRule) (parseTs : String → String → Option Int)
    (table : Table) : Option (List Rec) :=
  (parseRows parseTs (table.Headers.getD 2 []) table.Rows).map (fixDST z)

/-! ### Classification lemmas for `civilStatus` -/

theorem civilStatus_nonexistent (z : ZoneRule) (w : Int)
    (h1 : z.spring + z.std ≤ w) (h2 : w < z.spring + z.dst) :
    civilStatus z w = .nonexistent := by
  unfold civilStatus
  rw [if_pos ⟨h1, h2⟩]

theorem civilStatus_ambiguous (z : ZoneRule) (w : Int)
    (hsep : z.spring + z.dst ≤ z.autumn + z.std)
    (h1 : z.autumn + z.std ≤ w) (h2 : w < z.autumn + z.dst) :
    civilStatus z w = .ambiguous := by
  unfold civilStatus
  rw [if_neg (by omega), if_pos ⟨h1, h2⟩]

theorem civilStatus_unambDst (z : ZoneRule) (w : Int)
    (h1 : z.spring + z.dst ≤ w) (h2 : w < z.autumn + z.std) :
    civilStatus z w = .unambDst := by
  unfold civilStatus
  rw [if_neg (by omega), if_neg (by omega), if_pos ⟨h1, h2⟩]

theorem civilStatus_unambStd_low (z : ZoneRule) (w : Int)
    (hd : z.std ≤ z.dst) (hsa : z.spring ≤ z.autumn)
    (h : w < z.spring + z.std) : civilStatus z w = .unambStd := by
  unfold civilStatus
  rw [if_neg (by omega), if_neg (by omega), if_neg (by omega)]

theorem civilStatus_unambStd_high (z : ZoneRule) (w : Int)
    (hd : z.std ≤ z.dst) (hsa : z.spring ≤ z.autumn) (h : z.autumn + z.dst ≤ w) :
    civilStatus z w = .unambStd := by
  unfold civilStatus
  rw [if_neg (by omega), if_neg (by omega), if_neg (by omega)]

/-! ### One-step unfolding lemmas for `resolve` -/

theorem resolve_unambStd (z : ZoneRule) (st : TimeFixer) (w : Int)
    (h : civilStatus z w = .unambStd) :
    resolve z st w = (w - z.std, ⟨some (w - z.std), some z.std⟩) := by
  unfold resolve
  rw [h]

theorem resolve_unambDst (z : ZoneRule) (st : TimeFixer) (w : Int)
    (h : civilStatus z w = .unambDst) :
    resolve z st w = (w - z.dst, ⟨some (w - z.dst), some z.dst⟩) := by
  unfold resolve
  rw [h]

theorem resolve_nonexistent (z : ZoneRule) (st : TimeFixer) (w : Int)
    (h : civilStatus z w = .nonexistent) :
    resolve z st w =
      ((w + z.delta) - z.dst, ⟨some ((w + z.delta) - z.dst), some z.dst⟩) := by
  unfold resolve
  rw [h]

theorem resolve_ambiguous_none (z : ZoneRule) (st : TimeFixer) (w : Int)
    (h : civilStatus z w = .ambiguous) (hn : st.lastResolvedInstant = none) :
    resolve z st w = (w - z.dst, ⟨some (w - z.dst), some z.dst⟩) := by
  unfold resolve
  rw [h]
  simp [hn]

theorem resolve_ambiguous_lt (z : ZoneRule) (st : TimeFixer) (w l : Int)
    (h : civilStatus z w = .ambiguous) (hl : st.lastResolvedInstant = some l)
    (hlt : l < w - z.dst) :
    resolve z st w = (w - z.dst, ⟨some (w - z.dst), some z.dst⟩) := by
  unfold resolve
  rw [h]
  simp [hl, hlt]

theorem resolve_ambiguous_ge (z : ZoneRule) (st : TimeFixer) (w l : Int)
    (h : civilStatus z w = .ambiguous) (hl : st.lastResolvedInstant = some l)
    (hge : w - z.dst ≤ l) :
    resolve z st w = (w - z.std, ⟨some (w - z.std), some z.std⟩) := by
  unfold resolve
  rw [h]
  simp [hl]
  omega

/-! ### Stepping the resolver on a disguised true instant

Throughout, `hd : z.std + 3600 = z.dst` fixes the daylight delta at one hour
(the cadence of the streams under study) and `hsep : z.spring + 3600 ≤
z.autumn` separates the skipped window from the ambiguous one. -/

theorem disguise_std (z : ZoneRule) (t : Int)
    (h : ¬(z.spring ≤ t ∧ t < z.autumn)) : disguise z t = t + z.std := by
  unfold disguise offsetAt
  rw [if_neg h]

theorem disguise_dst (z : ZoneRule) (t : Int)
    (h1 : z.spring ≤ t) (h2 : t < z.autumn) : disguise z t = t + z.dst := by
  unfold disguise offsetAt
  rw [if_pos ⟨h1, h2⟩]

/-- A true instant before the spring transition resolves exactly, from any
state. -/
theorem step_before_spring (z : ZoneRule) (st : TimeFixer) (t : Int)
    (hd : z.std + 3600 = z.dst) (hsep : z.spring + 3600 ≤ z.autumn)
    (h : t < z.spring) :
    resolve z st (disguise z t) = (t, ⟨some t, some z.std⟩) := by
  rw [disguise_std z t (by omega),
    resolve_unambStd z st _ (civilStatus_unambStd_low z _ (by omega) (by omega)
      (by omega))]
  have he : t + z.std - z.std = t := by ring
  rw [he]

/-- A true instant in the daylight period, more than one hour before the
autumn transition, resolves exactly, from any state. -/
theorem step_daylight (z : ZoneRule) (st : TimeFixer) (t : Int)
    (hd : z.std + 3600 = z.dst) (h1 : z.spring ≤ t)
    (h2 : t < z.autumn - 3600) :
    resolve z st (disguise z t) = (t, ⟨some t, some z.dst⟩) := by
  rw [disguise_dst z t h1 (by omega),
    resolve_unambDst z st _ (civilStatus_unambDst z _ (by omega) (by omega))]
  have he : t + z.dst - z.dst = t := by ring
  rw [he]

/-- A true instant in the last daylight hour (first occurrence of the
ambiguous hour) resolves exactly whenever the last resolved instant lies
strictly below it. -/
theorem step_amb_first (z : ZoneRule) (t l : Int) (o : Option Int)
    (hd : z.std + 3600 = z.dst) (hsep : z.spring + 3600 ≤ z.autumn)
    (h1 : z.autumn - 3600 ≤ t) (h2 : t < z.autumn) (hl : l < t) :
    resolve z ⟨some l, o⟩ (disguise z t) = (t, ⟨some t, some z.dst⟩) := by
  rw [disguise_dst z t (by omega) h2]
  have hs : civilStatus z (t + z.dst) = .ambiguous :=
    civilStatus_ambiguous z _ (by omega) (by omega) (by omega)
  have he : t + z.dst - z.dst = t := by ring
  rw [resolve_ambiguous_lt z _ _ l hs rfl (by omega), he]

/-- A true instant in the last daylight hour resolves exactly on a fresh
stream as well (the daylight offset is the default). -/
theorem step_amb_first_fresh (z : ZoneRule) (t : Int)
    (hd : z.std + 3600 = z.dst) (hsep : z.spring + 3600 ≤ z.autumn)
    (h1 : z.autumn - 3600 ≤ t) (h2 : t < z.autumn) :
    resolve z TimeFixer.fresh (disguise z t) = (t, ⟨some t, some z.dst⟩) := by
  rw [disguise_dst z t (by omega) h2]
  have hs : civilStatus z (t + z.dst) = .ambiguous :=
    civilStatus_ambiguous z _ (by omega) (by omega) (by omega)
  have he : t + z.dst - z.dst = t := by ring
  rw [resolve_ambiguous_none z _ _ hs rfl, he]

/-- A true instant in the first standard hour after the autumn transition
(second occurrence of the ambiguous hour) resolves exactly whenever the last
resolved instant is at most one hour behind it. -/
theorem step_amb_second (z : ZoneRule) (t l : Int) (o : Option Int)
    (hd : z.std + 3600 = z.dst) (hsep : z.spring + 3600 ≤ z.autumn)
    (h1 : z.autumn ≤ t) (h2 : t < z.autumn + 3600) (hl : t - 3600 ≤ l) :
    resolve z ⟨some l, o⟩ (disguise z t) = (t, ⟨some t, some z.std⟩) := by
  rw [disguise_std z t (by omega)]
  have hs : civilStatus z (t + z.std) = .ambiguous :=
    civilStatus_ambiguous z _ (by omega) (by omega) (by omega)
  have he : t + z.std - z.std = t := by ring
  rw [resolve_ambiguous_ge z _ _ l hs rfl (by omega), he]

/-- On a fresh stream, a true instant in the hour after the autumn
transition is mistaken for the first occurrence: it resolves one hour early,
under the daylight offset. -/
theorem step_amb_second_fresh (z : ZoneRule) (t : Int)
    (hd : z.std + 3600 = z.dst) (hsep : z.spring + 3600 ≤ z.autumn)
    (h1 : z.autumn ≤ t) (h2 : t < z.autumn + 3600) :
    resolve z TimeFixer.fresh (disguise z t) =
      (t - 3600, ⟨some (t - 3600), some z.dst⟩) := by
  rw [disguise_std z t (by omega)]
  have hs : civilStatus z (t + z.std) = .ambiguous :=
    civilStatus_ambiguous z _ (by omega) (by omega) (by omega)
  have he : t + z.std - z.dst = t - 3600 := by omega
  rw [resolve_ambiguous_none z _ _ hs rfl, he]

/-- A true instant at least one hour past the autumn transition resolves
exactly, from any state. -/
theorem step_after_autumn (z : ZoneRule) (st : TimeFixer) (t : Int)
    (hd : z.std + 3600 = z.dst) (hsep : z.spring + 3600 ≤ z.autumn)
    (h : z.autumn + 3600 ≤ t) :
    resolve z st (disguise z t) = (t, ⟨some t, some z.std⟩) := by
  rw [disguise_std z t (by omega),
    resolve_unambStd z st _
      (civilStatus_unambStd_high z _ (by omega) (by omega) (by omega))]
  have he : t + z.std - z.std = t := by ring
  rw [he]

/-- Combined step: from a state whose last resolved instant lies in
`[t - 3600, t)`, the disguised reading of `t` resolves exactly to `t`, and
the stored offset is the one in force at `t`. -/
theorem step_exact (z : ZoneRule) (t l : Int) (o : Option Int)
    (hd : z.std + 3600 = z.dst) (hsep : z.spring + 3600 ≤ z.autumn)
    (h1 : t - 3600 ≤ l) (h2 : l < t) :
    resolve z ⟨some l, o⟩ (disguise z t) = (t, ⟨some t, some (offsetAt z t)⟩) := by
  rcases lt_or_le t z.spring with hc | hc
  · rw [step_before_spring z _ t hd hsep hc]
    unfold offsetAt
    rw [if_neg (by omega)]
  rcases lt_or_le t (z.autumn - 3600) with hc2 | hc2
  · rw [step_daylight z _ t hd hc hc2]
    unfold offsetAt
    rw [if_pos ⟨hc, by omega⟩]
  rcases lt_or_le t z.autumn with hc3 | hc3
  · rw [step_amb_first z t l o hd hsep hc2 hc3 (by omega)]
    unfold offsetAt
    rw [if_pos ⟨hc, hc3⟩]
  rcases lt_or_le t (z.autumn + 3600) with hc4 | hc4
  · rw [step_amb_second z t l o hd hsep hc3 hc4 h1]
    unfold offsetAt
    rw [if_neg (by omega)]
  · rw [step_after_autumn z _ t hd hsep hc4]
    unfold offsetAt
    rw [if_neg (by omega)]

/-- Fresh step, outside the hour following the autumn transition: exact. -/
theorem step_fresh_exact (z : ZoneRule) (t : Int)
    (hd : z.std + 3600 = z.dst) (hsep : z.spring + 3600 ≤ z.autumn)
    (h : ¬(z.autumn ≤ t ∧ t < z.autumn + 3600)) :
    resolve z TimeFixer.fresh (disguise z t) =
      (t, ⟨some t, some (offsetAt z t)⟩) := by
  rcases lt_or_le t z.spring with hc | hc
  · rw [step_before_spring z _ t hd hsep hc]
    unfold offsetAt
    rw [if_neg (by omega)]
  rcases lt_or_le t (z.autumn - 3600) with hc2 | hc2
  · rw [step_daylight z _ t hd hc hc2]
    unfold offsetAt
    rw [if_pos ⟨hc, by omega⟩]
  rcases lt_or_le t z.autumn with hc3 | hc3
  · rw [step_amb_first_fresh z t hd hsep hc2 hc3]
    unfold offsetAt
    rw [if_pos ⟨hc, hc3⟩]
  · rw [step_after_autumn z _ t hd hsep (by omega)]
    unfold offsetAt
    rw [if_neg (by omega)]

/-! ### Resolving a whole hourly cadence -/

/-- From a state at most one hour behind, the whole disguised hourly cadence
resolves back to the true instants. -/
theorem resolveList_exact (z : ZoneRule) (hd : z.std + 3600 = z.dst)
    (hsep : z.spring + 3600 ≤ z.autumn) (n : Nat) :
    ∀ (t l : Int) (o : Option Int), t - 3600 ≤ l → l < t →
      resolveList z ⟨some l, o⟩ ((hourly t n).map (disguise z)) = hourly t n := by
  induction n with
  | zero =>
      intro t l o _ _
      rfl
  | succ n ih =>
      intro t l o h1 h2
      simp only [hourly, List.map_cons, resolveList,
        step_exact z t l o hd hsep h1 h2]
      rw [ih (t + 3600) t (some (offsetAt z t)) (by omega) (by omega)]

/-- A fresh stream whose first true instant is outside the hour after the
autumn transition resolves the whole cadence exactly. -/
theorem resolveList_fresh_exact (z : ZoneRule) (hd : z.std + 3600 = z.dst)
    (hsep : z.spring + 3600 ≤ z.autumn) (n : Nat) (t : Int)
    (h : ¬(z.autumn ≤ t ∧ t < z.autumn + 3600)) :
    resolveList z TimeFixer.fresh ((hourly t n).map (disguise z)) =
      hourly t n := by
  cases n with
  | zero => rfl
  | succ n =>
      simp only [hourly, List.map_cons, resolveList,
        step_fresh_exact z t hd hsep h]
      rw [resolveList_exact z hd hsep n (t + 3600) t (some (offsetAt z t))
        (by omega) (by omega)]

/-- A fresh stream whose first true instant falls in the hour after the
autumn transition resolves that first reading one hour early and every
later reading exactly. -/
theorem resolveList_fresh_autumn (z : ZoneRule) (hd : z.std + 3600 = z.dst)
    (hsep : z.spring + 3600 ≤ z.autumn) (n : Nat) (t : Int)
    (h1 : z.autumn ≤ t) (h2 : t < z.autumn + 3600) :
    resolveList z TimeFixer.fresh ((hourly t (n + 1)).map (disguise z)) =
      (t - 3600) :: hourly (t + 3600) n := by
  cases n with
  | zero =>
      simp only [hourly, List.map_cons, List.map_nil, resolveList,
        step_amb_second_fresh z t hd hsep h1 h2]
  | succ m =>
      simp only [hourly, List.map_cons, resolveList,
        step_amb_second_fresh z t hd hsep h1 h2,
        step_after_autumn z _ (t + 3600) hd hsep (by omega)]
      rw [resolveList_exact z hd hsep m (t + 3600 + 3600) (t + 3600) (some z.std)
        (by omega) (by omega)]

/-- An hourly cadence is non-decreasing with steps of at most the daylight
delta plus the cadence. -/
theorem chain_hourly (z : ZoneRule) (hd : z.std + 3600 = z.dst) (n : Nat) :
    ∀ t : Int,
      List.Chain' (fun a b => a ≤ b ∧ b - a ≤ (z.dst - z.std) + 3600)
        (hourly t n) := by
  induction n with
  | zero =>
      intro t
      simp [hourly]
  | succ n ih =>
      intro t
      cases n with
      | zero => simp [hourly]
      | succ m =>
          have h := ih (t + 3600)
          simp only [hourly] at h ⊢
          exact List.chain'_cons.mpr ⟨⟨by omega, by omega⟩, h⟩

/-! ### Parsing lemmas -/

theorem parseNatCore_isSome (cs : List Char) (acc : Nat)
    (h : cs.all Char.isDigit = true) : ∃ m, parseNatCore cs acc = some m := by
  induction cs generalizing acc with
  | nil => exact ⟨acc, rfl⟩
  | cons c cs ih =>
      rw [List.all_cons, Bool.and_eq_true] at h
      unfold parseNatCore
      rw [if_pos h.1]
      exact ih _ h.2

theorem parseNatCore_isNone (cs : List Char) (acc : Nat)
    (h : cs.all Char.isDigit = false) : parseNatCore cs acc = none := by
  induction cs generalizing acc with
  | nil => simp at h
  | cons c cs ih =>
      rw [List.all_cons, Bool.and_eq_false_iff] at h
      unfold parseNatCore
      rcases h with h | h
      · rw [if_neg (by simp [h])]
      · by_cases hc : c.isDigit
        · rw [if_pos hc]
          exact ih _ h
        · rw [if_neg hc]

/-- A string fails the Naive Decoder exactly when it is not a non-empty
all-digit string. -/
theorem parseNonNeg_malformed (s : String)
    (h : ¬(s.data ≠ [] ∧ s.data.all Char.isDigit = true)) :
    parseNonNeg s = none := by
  unfold parseNonNeg
  cases hc : s.data with
  | nil => rfl
  | cons c cs =>
      have hb : (c :: cs).all Char.isDigit = false := by
        rcases Bool.eq_false_or_eq_true ((c :: cs).all Char.isDigit) with hb | hb
        · exact absurd ⟨by rw [hc]; exact List.cons_ne_nil c cs, hc ▸ hb⟩ h
        · exact hb
      exact parseNatCore_isNone _ 0 hb

theorem parseNonNeg_wellformed (s : String) (h1 : s.data ≠ [])
    (h2 : s.data.all Char.isDigit = true) : ∃ m, parseNonNeg s = some m := by
  unfold parseNonNeg
  cases hc : s.data with
  | nil => exact absurd hc h1
  | cons c cs => exact parseNatCore_isSome _ 0 (hc ▸ h2)

/-- A malformed call returns the sentinel, flags the error and keeps the
state. -/
theorem ParseBrokenTime_malformed (z : ZoneRule) (st : TimeFixer) (s : String)
    (h : parseNonNeg s = none) : ParseBrokenTime z st s = (0, true, st) := by
  unfold ParseBrokenTime
  rw [h]

/-! ### Claims C1 to C7, on the Resolution State Machine -/

/-- C1: in the ambiguous (autumn fall-back) window the resolver chooses the
daylight (earlier) offset when the stream has no prior resolved instant or
when the daylight candidate strictly exceeds `lastResolvedInstant`, and the
standard (later) offset in every other case. -/
theorem claim_C1 (z : ZoneRule) (st : TimeFixer) (w : Int)
    (hsep : z.spring + z.dst ≤ z.autumn + z.std)
    (h1 : z.autumn + z.std ≤ w) (h2 : w < z.autumn + z.dst) :
    (st.lastResolvedInstant = none → (resolve z st w).1 = w - z.dst) ∧
    (∀ l, st.lastResolvedInstant = some l →
      (l < w - z.dst → (resolve z st w).1 = w - z.dst) ∧
      (w - z.dst ≤ l → (resolve z st w).1 = w - z.std)) := by
  have hs := civilStatus_ambiguous z w hsep h1 h2
  refine ⟨fun hn => ?_, fun l hl => ⟨fun hlt => ?_, fun hge => ?_⟩⟩
  · rw [resolve_ambiguous_none z st w hs hn]
  · rw [resolve_ambiguous_lt z st w l hs hl hlt]
  · rw [resolve_ambiguous_ge z st w l hs hl hge]

theorem claim_C1_witness :
    zHel2015.spring + zHel2015.dst ≤ zHel2015.autumn + zHel2015.std ∧
    zHel2015.autumn + zHel2015.std ≤ 1445742000 ∧
    (1445742000 : Int) < zHel2015.autumn + zHel2015.dst ∧
    ((TimeFixer.fresh.lastResolvedInstant = none →
        (resolve zHel2015 TimeFixer.fresh 1445742000).1 =
          1445742000 - zHel2015.dst) ∧
      (∀ l, TimeFixer.fresh.lastResolvedInstant = some l →
        (l < 1445742000 - zHel2015.dst →
          (resolve zHel2015 TimeFixer.fresh 1445742000).1 =
            1445742000 - zHel2015.dst) ∧
        (1445742000 - zHel2015.dst ≤ l →
          (resolve zHel2015 TimeFixer.fresh 1445742000).1 =
            1445742000 - zHel2015.std))) :=
  ⟨by decide, by decide, by decide,
    claim_C1 zHel2015 TimeFixer.fresh 1445742000 (by decide) (by decide)
      (by decide)⟩

/-- C2 counterexample: a stream that has already advanced past the ambiguous
hour (here by first resolving the later reading 1445750000) resolves two
consecutive identical ambiguous readings both with the standard offset, so
the second instant equals the first instead of exceeding it by the daylight
delta. -/
theorem claim_C2_counterexample :
    zHel2015.autumn + zHel2015.std ≤ 1445742000 ∧
    (1445742000 : Int) < zHel2015.autumn + zHel2015.dst ∧
    (ParseBrokenTime zHel2015
        (ParseBrokenTime zHel2015
          (ParseBrokenTime zHel2015 TimeFixer.fresh "1445750000").2.2
          "1445742000").2.2
        "1445742000").1 ≠
      (ParseBrokenTime zHel2015
          (ParseBrokenTime zHel2015 TimeFixer.fresh "1445750000").2.2
          "1445742000").1 + zHel2015.delta := by
  decide

/-- C2 amended: when the first of two consecutive identical ambiguous
readings resolves with the daylight offset (in particular on a fresh stream,
or whenever the last resolved instant lies strictly below the daylight
candidate), the second resolves exactly one daylight delta later than the
first. -/
theorem claim_C2_amended (z : ZoneRule) (st : TimeFixer) (w : Int)
    (hsep : z.spring + z.dst ≤ z.autumn + z.std)
    (h1 : z.autumn + z.std ≤ w) (h2 : w < z.autumn + z.dst)
    (hfirst : st.lastResolvedInstant = none ∨
      ∃ l, st.lastResolvedInstant = some l ∧ l < w - z.dst) :
    (resolve z (resolve z st w).2 w).1 = (resolve z st w).1 + z.delta := by
  have hs := civilStatus_ambiguous z w hsep h1 h2
  have hfst : resolve z st w = (w - z.dst, ⟨some (w - z.dst), some z.dst⟩) := by
    rcases hfirst with hn | ⟨l, hl, hlt⟩
    · exact resolve_ambiguous_none z st w hs hn
    · exact resolve_ambiguous_lt z st w l hs hl hlt
  rw [hfst,
    resolve_ambiguous_ge z _ w (w - z.dst) hs rfl (le_refl _)]
  show w - z.std = w - z.dst + z.delta
  unfold ZoneRule.delta
  ring

theorem claim_C2_amended_witness :
    zHel2015.spring + zHel2015.dst ≤ zHel2015.autumn + zHel2015.std ∧
    zHel2015.autumn + zHel2015.std ≤ 1445742000 ∧
    (1445742000 : Int) < zHel2015.autumn + zHel2015.dst ∧
    (TimeFixer.fresh.lastResolvedInstant = none ∨
      ∃ l, TimeFixer.fresh.lastResolvedInstant = some l ∧
        l < 1445742000 - zHel2015.dst) ∧
    (resolve zHel2015 (resolve zHel2015 TimeFixer.fresh 1445742000).2
        1445742000).1 =
      (resolve zHel2015 TimeFixer.fresh 1445742000).1 + zHel2015.delta :=
  ⟨by decide, by decide, by decide, Or.inl rfl,
    claim_C2_amended zHel2015 TimeFixer.fresh 1445742000 (by decide)
      (by decide) (by decide) (Or.inl rfl)⟩

/-- C3: resolving the disguised readings of any regular hourly cadence of
true instants, from a fresh stream, yields a non-decreasing sequence of
instants whose consecutive differences never exceed the daylight delta plus
the cadence. -/
theorem claim_C3 (z : ZoneRule) (hd : z.std + 3600 = z.dst)
    (hsep : z.spring + 3600 ≤ z.autumn) (t0 : Int) (n : Nat) :
    List.Chain' (fun a b => a ≤ b ∧ b - a ≤ z.delta + 3600)
      (resolveList z TimeFixer.fresh ((hourly t0 n).map (disguise z))) := by
  unfold ZoneRule.delta
  by_cases h : z.autumn ≤ t0 ∧ t0 < z.autumn + 3600
  · cases n with
    | zero => simp [hourly, resolveList]
    | succ m =>
        rw [resolveList_fresh_autumn z hd hsep m t0 h.1 h.2]
        cases m with
        | zero => simp [hourly]
        | succ k =>
            have hch := chain_hourly z hd (k + 1) (t0 + 3600)
            simp only [hourly] at hch ⊢
            exact List.chain'_cons.mpr ⟨⟨by omega, by omega⟩, hch⟩
  · rw [resolveList_fresh_exact z hd hsep n t0 h]
    exact chain_hourly z hd n t0

theorem claim_C3_witness :
    zHel2015.std + 3600 = zHel2015.dst ∧
    zHel2015.spring + 3600 ≤ zHel2015.autumn ∧
    List.Chain' (fun a b => a ≤ b ∧ b - a ≤ zHel2015.delta + 3600)
      (resolveList zHel2015 TimeFixer.fresh
        ((hourly 1445727600 5).map (disguise zHel2015))) :=
  ⟨by decide, by decide,
    claim_C3 zHel2015 (by decide) (by decide) 1445727600 5⟩

/-- C4: a wall-clock reading in the non-existent (spring-gap) window is
shifted forward by the daylight delta, interpreted at the daylight offset,
and resolved without error, from any state. -/
theorem claim_C4 (z : ZoneRule) (st : TimeFixer) (s : String) (n : Nat)
    (hp : parseNonNeg s = some n)
    (h1 : z.spring + z.std ≤ (n : Int)) (h2 : (n : Int) < z.spring + z.dst) :
    ParseBrokenTime z st s =
      (((n : Int) + z.delta) - z.dst, false,
        ⟨some (((n : Int) + z.delta) - z.dst), some z.dst⟩) := by
  unfold ParseBrokenTime
  rw [hp]
  show ((resolve z st ((n : Int))).1, false, (resolve z st ((n : Int))).2) = _
  rw [resolve_nonexistent z st _ (civilStatus_nonexistent z _ h1 h2)]

theorem claim_C4_witness :
    parseNonNeg "1427598000" = some 1427598000 ∧
    zHel2015.spring + zHel2015.std ≤ ((1427598000 : Nat) : Int) ∧
    ((1427598000 : Nat) : Int) < zHel2015.spring + zHel2015.dst ∧
    ParseBrokenTime zHel2015 TimeFixer.fresh "1427598000" =
      ((((1427598000 : Nat) : Int) + zHel2015.delta) - zHel2015.dst, false,
        ⟨some ((((1427598000 : Nat) : Int) + zHel2015.delta) - zHel2015.dst),
          some zHel2015.dst⟩) :=
  ⟨by decide, by decide, by decide,
    claim_C4 zHel2015 TimeFixer.fresh "1427598000" 1427598000 (by decide)
      (by decide) (by decide)⟩

/-- C5: outside both special windows the resolver applies the single
applicable offset (standard in winter, daylight in summer) and the result
does not depend on the resolver's prior state. -/
theorem claim_C5 (z : ZoneRule) (st st2 : TimeFixer) (w : Int)
    (hd : z.std ≤ z.dst) (hsa : z.spring ≤ z.autumn) :
    ((w < z.spring + z.std ∨ z.autumn + z.dst ≤ w) →
      (resolve z st w).1 = w - z.std ∧
      (resolve z st w).1 = (resolve z st2 w).1) ∧
    (z.spring + z.dst ≤ w ∧ w < z.autumn + z.std →
      (resolve z st w).1 = w - z.dst ∧
      (resolve z st w).1 = (resolve z st2 w).1) := by
  constructor
  · rintro (h | h)
    · have hs := civilStatus_unambStd_low z w hd hsa h
      rw [resolve_unambStd z st w hs, resolve_unambStd z st2 w hs]
      exact ⟨rfl, rfl⟩
    · have hs := civilStatus_unambStd_high z w hd hsa h
      rw [resolve_unambStd z st w hs, resolve_unambStd z st2 w hs]
      exact ⟨rfl, rfl⟩
  · rintro ⟨h1, h2⟩
    have hs := civilStatus_unambDst z w h1 h2
    rw [resolve_unambDst z st w hs, resolve_unambDst z st2 w hs]
    exact ⟨rfl, rfl⟩

theorem claim_C5_witness :
    zHel2015.std ≤ zHel2015.dst ∧ zHel2015.spring ≤ zHel2015.autumn ∧
    ((resolve zHel2015 TimeFixer.fresh 1445752800).1 =
        1445752800 - zHel2015.std ∧
      (resolve zHel2015 TimeFixer.fresh 1445752800).1 =
        (resolve zHel2015 ⟨some 7, some 7200⟩ 1445752800).1) ∧
    ((resolve zHel2015 TimeFixer.fresh 1445731200).1 =
        1445731200 - zHel2015.dst ∧
      (resolve zHel2015 TimeFixer.fresh 1445731200).1 =
        (resolve zHel2015 ⟨some 7, some 7200⟩ 1445731200).1) :=
  ⟨by decide, by decide,
    (claim_C5 zHel2015 TimeFixer.fresh ⟨some 7, some 7200⟩ 1445752800
        (by decide) (by decide)).1 (Or.inr (by decide)),
    (claim_C5 zHel2015 TimeFixer.fresh ⟨some 7, some 7200⟩ 1445731200
        (by decide) (by decide)).2 ⟨by decide, by decide⟩⟩

/-- C6: a reading that is not a non-negative decimal integer makes the
streaming resolver return the sentinel instant with the error flag and the
unchanged state; a reading that is one resolves without error. -/
theorem claim_C6 (z : ZoneRule) (st : TimeFixer) (s : String) :
    (¬(s.data ≠ [] ∧ s.data.all Char.isDigit = true) →
      ParseBrokenTime z st s = (0, true, st)) ∧
    ((s.data ≠ [] ∧ s.data.all Char.isDigit = true) →
      (ParseBrokenTime z st s).2.1 = false) := by
  constructor
  · intro h
    exact ParseBrokenTime_malformed z st s (parseNonNeg_malformed s h)
  · rintro ⟨h1, h2⟩
    obtain ⟨m, hm⟩ := parseNonNeg_wellformed s h1 h2
    unfold ParseBrokenTime
    rw [hm]

theorem claim_C6_witness :
    ParseBrokenTime zHel2015 TimeFixer.fresh "invalid input" =
      (0, true, TimeFixer.fresh) ∧
    (ParseBrokenTime zHel2015 TimeFixer.fresh "1445738400").2.1 = false :=
  ⟨(claim_C6 zHel2015 TimeFixer.fresh "invalid input").1 (by decide),
    (claim_C6 zHel2015 TimeFixer.fresh "1445738400").2 (by decide)⟩

/-- C7 counterexample: the malformed call does leave the state untouched
(second conjunct), but resolving the same valid ambiguous reading before and
after it yields two different instants, because the first resolution itself
advanced the state; so "the same resolved instant both times" fails. -/
theorem claim_C7_counterexample :
    (ParseBrokenTime zHel2015
        ((ParseBrokenTime zHel2015
            ((ParseBrokenTime zHel2015 TimeFixer.fresh "1445742000").2.2)
            "not a number").2.2)
        "1445742000").1 ≠
      (ParseBrokenTime zHel2015 TimeFixer.fresh "1445742000").1 ∧
    (ParseBrokenTime zHel2015
        ((ParseBrokenTime zHel2015 TimeFixer.fresh "1445742000").2.2)
        "not a number").2.2 =
      (ParseBrokenTime zHel2015 TimeFixer.fresh "1445742000").2.2 := by
  decide

/-- C7 amended: a failed (malformed) resolve call leaves the ResolverState
exactly as it was, so any subsequent resolution — in particular repeating
the valid reading — behaves exactly as if the malformed call had not
happened; the two resolutions of the valid reading coincide only when that
reading is not ambiguous, since a successful resolution itself updates the
state. -/
theorem claim_C7_amended (z : ZoneRule) (st : TimeFixer) (sbad : String)
    (hbad : ¬(sbad.data ≠ [] ∧ sbad.data.all Char.isDigit = true)) :
    (ParseBrokenTime z st sbad).2.2 = st ∧
    ∀ sv : String,
      ParseBrokenTime z
          (ParseBrokenTime z (ParseBrokenTime z st sv).2.2 sbad).2.2 sv =
        ParseBrokenTime z (ParseBrokenTime z st sv).2.2 sv := by
  have hstate : ∀ st' : TimeFixer, (ParseBrokenTime z st' sbad).2.2 = st' := by
    intro st'
    rw [ParseBrokenTime_malformed z st' sbad (parseNonNeg_malformed sbad hbad)]
  exact ⟨hstate st, fun sv => by rw [hstate]⟩

theorem claim_C7_amended_witness :
    (ParseBrokenTime zHel2015 TimeFixer.fresh "junk").2.2 = TimeFixer.fresh ∧
    ParseBrokenTime zHel2015
        (ParseBrokenTime zHel2015
          (ParseBrokenTime zHel2015 TimeFixer.fresh "1445738400").2.2
          "junk").2.2
        "1445738400" =
      ParseBrokenTime zHel2015
        (ParseBrokenTime zHel2015 TimeFixer.fresh "1445738400").2.2
        "1445738400" :=
  ⟨(claim_C7_amended zHel2015 TimeFixer.fresh "junk" (by decide)).1,
    (claim_C7_amended zHel2015 TimeFixer.fresh "junk" (by decide)).2
      "1445738400"⟩

/-! ### List bookkeeping for the batch adapter -/

theorem list_map_set {α β : Type} (f : α → β) :
    ∀ (l : List α) (i : Nat) (v : α),
      (l.set i v).map f = (l.map f).set i (f v) := by
  intro l
  induction l with
  | nil => intro i v; rfl
  | cons a l ih =>
      intro i v
      cases i with
      | zero => rfl
      | succ i => simp [List.set, ih i v]

theorem list_take_set_succ {α : Type} :
    ∀ (l : List α) (i : Nat) (v : α), i < l.length →
      (l.set i v).take (i + 1) = l.take i ++ [v] := by
  intro l
  induction l with
  | nil => intro i v h; simp at h
  | cons a l ih =>
      intro i v h
      cases i with
      | zero => rfl
      | succ i =>
          simp only [List.set, List.take, List.cons_append]
          rw [ih i v (by simpa using h)]

theorem list_drop_set_succ {α : Type} :
    ∀ (l : List α) (i : Nat) (v : α),
      (l.set i v).drop (i + 1) = l.drop (i + 1) := by
  intro l
  induction l with
  | nil => intro i v; rfl
  | cons a l ih =>
      intro i v
      cases i with
      | zero => rfl
      | succ i => simpa only [List.set, List.drop] using ih i v

theorem list_drop_of_get {α : Type} :
    ∀ (l : List α) (i : Nat) (a : α), l.get? i = some a →
      l.drop i = a :: l.drop (i + 1) := by
  intro l
  induction l with
  | nil => intro i a h; cases i <;> simp [List.get?] at h
  | cons b l ih =>
      intro i a h
      cases i with
      | zero =>
          simp only [List.get?] at h
          injection h with he
          simp [he]
      | succ i => simpa only [List.drop] using ih i a h

theorem list_get_set_self {α : Type} :
    ∀ (l : List α) (i : Nat) (v : α), i < l.length →
      (l.set i v).get? i = some v := by
  intro l
  induction l with
  | nil => intro i v h; simp at h
  | cons a l ih =>
      intro i v h
      cases i with
      | zero => rfl
      | succ i => exact ih i v (by simpa using h)

theorem list_get_set_other {α : Type} :
    ∀ (l : List α) (i j : Nat) (v : α), j ≠ i →
      (l.set i v).get? j = l.get? j := by
  intro l
  induction l with
  | nil => intro i j v _; rfl
  | cons a l ih =>
      intro i j v hne
      cases i with
      | zero =>
          cases j with
          | zero => exact absurd rfl hne
          | succ j => rfl
      | succ i =>
          cases j with
          | zero => rfl
          | succ j => exact ih i j v (fun he => hne (by rw [he]))

/-- Setting an entry of a list to its current value is the identity. -/
theorem list_set_self {α : Type} :
    ∀ (m : List α) (i : Nat) (v : α), m.get? i = some v → m.set i v = m := by
  intro m
  induction m with
  | nil => intro i v _; rfl
  | cons y m ih =>
      intro i v h
      cases i with
      | zero =>
          simp only [List.get?] at h
          injection h with he
          simp [List.set, he]
      | succ i =>
          simp only [List.get?] at h
          simp [List.set, ih i v h]

/-- Invariant of the batch loop: after running the remaining `n` iterations
from index `i`, the timestamps are the already-fixed prefix followed by the
streaming resolution of the remaining original timestamps, and no Prices
field is touched. -/
theorem fixDSTAux_spec (z : ZoneRule) :
    ∀ (n : Nat) (st : TimeFixer) (r : List Rec) (i : Nat),
      i + n = r.length →
      (fixDSTAux z st r i n).map Rec.Timestamp =
        (r.map Rec.Timestamp).take i ++
          resolveList z st ((r.map Rec.Timestamp).drop i) ∧
      (fixDSTAux z st r i n).map Rec.Prices = r.map Rec.Prices := by
  intro n
  induction n with
  | zero =>
      intro st r i hi
      have hi' : i = r.length := by omega
      subst hi'
      constructor
      · rw [List.drop_eq_nil_of_le (by simp), List.take_of_length_le (by simp)]
        simp [fixDSTAux, resolveList]
      · rfl
  | succ n ih =>
      intro st r i hi
      have hlt : i < r.length := by omega
      obtain ⟨x, hx⟩ : ∃ x, r.get? i = some x :=
        ⟨r.get ⟨i, hlt⟩, List.get?_eq_get hlt⟩
      have htime : recTime r i = x.Timestamp := by
        unfold recTime
        rw [hx]
        rfl
      have hset : recSetTime r i (resolve z st (recTime r i)).1 =
          r.set i { x with Timestamp := (resolve z st (recTime r i)).1 } := by
        unfold recSetTime
        rw [hx]
      have hTmap : (r.map Rec.Timestamp).get? i = some x.Timestamp := by
        rw [List.get?_map, hx]
        rfl
      show (fixDSTAux z (resolve z st (recTime r i)).2
          (recSetTime r i (resolve z st (recTime r i)).1) (i + 1) n).map
            Rec.Timestamp =
          (r.map Rec.Timestamp).take i ++
            resolveList z st ((r.map Rec.Timestamp).drop i) ∧
        (fixDSTAux z (resolve z st (recTime r i)).2
          (recSetTime r i (resolve z st (recTime r i)).1) (i + 1) n).map
            Rec.Prices = r.map Rec.Prices
      rw [hset]
      set p := resolve z st (recTime r i) with hp
      have hlen : (i + 1) + n = (r.set i { x with Timestamp := p.1 }).length := by
        rw [List.length_set]
        omega
      obtain ⟨ihT, ihP⟩ := ih p.2 (r.set i { x with Timestamp := p.1 }) (i + 1) hlen
      constructor
      · rw [ihT, list_map_set Rec.Timestamp,
          list_take_set_succ _ i p.1 (by simpa using hlt),
          list_drop_set_succ,
          list_drop_of_get (r.map Rec.Timestamp) i x.Timestamp hTmap,
          resolveList]
        rw [← htime, ← hp]
        simp
      · rw [ihP, list_map_set Rec.Prices]
        have hpr : Rec.Prices { x with Timestamp := p.1 } = x.Prices := rfl
        have hself : (r.map Rec.Prices).get? i = some x.Prices := by
          rw [List.get?_map, hx]
          rfl
        rw [hpr, list_set_self (r.map Rec.Prices) i x.Prices hself]

/-- Every record emitted by the row loop carries a non-empty "SYS" price. -/
theorem parseRows_sys (parseTs : String → String → Option Int)
    (header : List String) :
    ∀ (rows : List (List String)) (data : List Rec),
      parseRows parseTs header rows = some data →
      ∀ r ∈ data, mapGet r.Prices "SYS" ≠ "" := by
  intro rows
  induction rows with
  | nil =>
      intro data h
      injection h with h
      subst h
      intro r hr
      simp at hr
  | cons row rest ih =>
      intro data h
      unfold parseRows at h
      by_cases hsys : mapGet (buildPrices header row) "SYS" = ""
      · rw [if_pos hsys] at h
        exact ih data h
      · rw [if_neg hsys] at h
        cases hp : parseTs (row.getD 0 "") ((row.getD 1 "").take 2) with
        | none =>
            rw [hp] at h
            exact absurd h (by simp)
        | some ts =>
            rw [hp] at h
            obtain ⟨rs, hrs, hdata⟩ := Option.map_eq_some'.mp h
            subst hdata
            intro r hr
            rcases List.mem_cons.mp hr with hr | hr
            · rw [hr]
              exact hsys
            · exact ih rs hrs r hr

/-- The batch adapter's timestamps are the streaming resolution of the
original naive timestamps. -/
theorem fixDST_timestamps (z : ZoneRule) (r : List Rec) :
    (fixDST z r).map Rec.Timestamp =
      resolveList z TimeFixer.fresh (r.map Rec.Timestamp) := by
  unfold fixDST
  rw [(fixDSTAux_spec z (recLen r) TimeFixer.fresh r 0 (by simp [recLen])).1]
  simp

/-- The batch adapter never touches a Prices field. -/
theorem fixDST_prices (z : ZoneRule) (r : List Rec) :
    (fixDST z r).map Rec.Prices = r.map Rec.Prices := by
  unfold fixDST
  exact (fixDSTAux_spec z (recLen r) TimeFixer.fresh r 0 (by simp [recLen])).2

/-! ### Claims C8 to C10, on the batch adapter and the table parser -/

/-- C8: the batch adapter threads one fresh resolver state through the
collection in index order, writing each corrected instant back at its index,
so the resulting timestamps are exactly the streaming resolution of the
original naive timestamps, and no other field is touched. -/
theorem claim_C8 (z : ZoneRule) (r : List Rec) :
    (fixDST z r).map Rec.Timestamp =
      resolveList z TimeFixer.fresh (r.map Rec.Timestamp) ∧
    (fixDST z r).map Rec.Prices = r.map Rec.Prices := by
  exact ⟨fixDST_timestamps z r, fixDST_prices z r⟩

/-- C9: `records.SetTime` changes only the Timestamp of element `i`: the
length is preserved, the Prices of element `i` survive, every other element
is untouched, and the write is visible in the collection handed back to the
caller (the model of the shared backing array behind Go's value receiver). -/
theorem claim_C9 (r : List Rec) (i : Nat) (t : Int) (h : i < r.length) :
    (recSetTime r i t).length = r.length ∧
    ((recSetTime r i t).get? i).map Rec.Timestamp = some t ∧
    ((recSetTime r i t).get? i).map Rec.Prices = (r.get? i).map Rec.Prices ∧
    ∀ j, j ≠ i → (recSetTime r i t).get? j = r.get? j := by
  obtain ⟨x, hx⟩ : ∃ x, r.get? i = some x := ⟨r.get ⟨i, h⟩, List.get?_eq_get h⟩
  have hset : recSetTime r i t = r.set i { x with Timestamp := t } := by
    unfold recSetTime
    rw [hx]
  rw [hset]
  refine ⟨List.length_set r i _, ?_, ?_, ?_⟩
  · rw [list_get_set_self r i _ h]
    rfl
  · rw [list_get_set_self r i _ h, hx]
    rfl
  · intro j hj
    exact list_get_set_other r i j _ hj

theorem claim_C9_witness :
    (recSetTime [⟨5, [("SYS", "1.0")]⟩, ⟨9, [("FI", "2.0")]⟩] 0 77).length =
      ([⟨5, [("SYS", "1.0")]⟩, ⟨9, [("FI", "2.0")]⟩] : List Rec).length ∧
    ((recSetTime [⟨5, [("SYS", "1.0")]⟩, ⟨9, [("FI", "2.0")]⟩] 0 77).get? 0).map
        Rec.Timestamp = some 77 ∧
    ((recSetTime [⟨5, [("SYS", "1.0")]⟩, ⟨9, [("FI", "2.0")]⟩] 0 77).get? 0).map
        Rec.Prices =
      (([⟨5, [("SYS", "1.0")]⟩, ⟨9, [("FI", "2.0")]⟩] : List Rec).get? 0).map
        Rec.Prices ∧
    ∀ j, j ≠ 0 →
      (recSetTime [⟨5, [("SYS", "1.0")]⟩, ⟨9, [("FI", "2.0")]⟩] 0 77).get? j =
        ([⟨5, [("SYS", "1.0")]⟩, ⟨9, [("FI", "2.0")]⟩] : List Rec).get? j :=
  claim_C9 [⟨5, [("SYS", "1.0")]⟩, ⟨9, [("FI", "2.0")]⟩] 0 77 (by decide)

/-- C10: every record returned by `parseTable` carries a non-empty "SYS"
price: rows whose "SYS" field is empty are silently skipped, and the batch
adapter applied afterwards never touches a Prices field. -/
theorem claim_C10 (z : ZoneRule) (parseTs : String → String → Option Int)
    (table : Table) (recs : List Rec)
    (h : parseTable z parseTs table = some recs) :
    ∀ r ∈ recs, mapGet r.Prices "SYS" ≠ "" := by
  unfold parseTable at h
  obtain ⟨data, hdata, hfix⟩ := Option.map_eq_some'.mp h
  intro r hr
  rw [← hfix] at hr
  have hmem : r.Prices ∈ (fixDST z data).map Rec.Prices :=
    List.mem_map_of_mem Rec.Prices hr
  rw [fixDST_prices z data] at hmem
  obtain ⟨r0, hr0, hpr⟩ := List.mem_map.mp hmem
  rw [← hpr]
  exact parseRows_sys parseTs (table.Headers.getD 2 []) table.Rows data hdata
    r0 hr0

theorem claim_C10_witness :
    parseTable zHel2015 (fun _ _ => some 1445742000)
        ⟨[[], [], ["Date", "Hours", "SYS"]],
          [["25-10-2015", "03 - 04", "31,45"], ["26-10-2015", "00 - 01", ""]]⟩ =
      some [⟨1445731200,
        [("SYS", "31.45"), ("Hours", "03 - 04"), ("Date", "25-10-2015")]⟩] ∧
    mapGet (Rec.mk 1445731200
        [("SYS", "31.45"), ("Hours", "03 - 04"), ("Date", "25-10-2015")]).Prices
      "SYS" ≠ "" :=
  ⟨by decide,
    claim_C10 zHel2015 (fun _ _ => some 1445742000)
      ⟨[[], [], ["Date", "Hours", "SYS"]],
        [["25-10-2015", "03 - 04", "31,45"], ["26-10-2015", "00 - 01", ""]]⟩
      [⟨1445731200,
        [("SYS", "31.45"), ("Hours", "03 - 04"), ("Date", "25-10-2015")]⟩]
      (by decide) _ (by decide)⟩

/-! ### Conformance with src/timefixer/timefixer_test.go

The spec-modelled state machine reproduces the four `TestTimeFixer` cases
(expected instants converted to epoch seconds) and `TestTimeFixerError`. -/

theorem model_matches_winter_case :
    resolveList zHel2012 TimeFixer.fresh
        [1325379600, 1325383200, 1325386800, 1325390400] =
      [1325372400, 1325376000, 1325379600, 1325383200] := by
  decide

theorem model_matches_summer_case :
    resolveList zHel2016 TimeFixer.fresh
        [1467342000, 1467345600, 1467349200, 1467352800] =
      [1467331200, 1467334800, 1467338400, 1467342000] := by
  decide

theorem model_matches_spring_case :
    resolveList zHel2016 TimeFixer.fresh
        [1459044000, 1459051200, 1459054800, 1459058400] =
      [1459036800, 1459040400, 1459044000, 1459047600] := by
  decide

theorem model_matches_autumn_case :
    resolveList zHel2015 TimeFixer.fresh
        [1445738400, 1445742000, 1445742000, 1445745600, 1445749200] =
      [1445727600, 1445731200, 1445734800, 1445738400, 1445742000] := by
  decide

theorem model_matches_error_case :
    ParseBrokenTime zHel2016 TimeFixer.fresh "invalid input" =
      (0, true, TimeFixer.fresh) := by
  decide

end Etget
